import Mathlib

/-!
Verification of the RPC framework's wire protocol and server core.

The definitions below are a shallow embedding of the C sources:
byte buffers become `List Nat` (each element one byte), the write cursor
becomes list append, and the read cursor becomes a `(value, remaining
bytes)` result.  Machine integers are modelled as `Int`/`Nat` with
explicit `% 2^w` where the C code truncates or wraps.
-/

namespace RPCVerify

/-- `FAILED` from config.h. -/
def FAILED : Int := -1

/-- `MAX_MESSAGE_BYTE_SIZE` from includes/protocol.h. -/
def MAX_MESSAGE_BYTE_SIZE : Nat := 1000000

/-- Big-endian byte decomposition: `beBytes n k` is the `k`-byte
big-endian encoding of `n % 256^k` (least significant byte last).
Models the `htobe64` + `memcpy` writes in protocol.c. -/
def beBytes (n : Nat) : Nat → List Nat
  | 0 => []
  | k + 1 => beBytes (n / 256) k ++ [n % 256]

/-- `serialise_int` (protocol.c:213-218): the C `int` argument is
converted to `uint64_t` (two's complement, i.e. reduction mod `2^64`),
byte-swapped to big endian and the 8 bytes are appended. -/
def serialise_int (value : Int) : List Nat :=
  beBytes ((value % (2 ^ 64 : Int)).toNat) 8

/-- Reassemble a big-endian byte list into a natural number. -/
def beVal (bs : List Nat) : Nat :=
  bs.foldl (fun a b => a * 256 + b) 0

/-- Truncation of a `uint64_t` value to the C `int` return type
(low 32 bits, two's complement). -/
def toInt32 (u : Nat) : Int :=
  if u % 2 ^ 32 < 2 ^ 31 then ((u % 2 ^ 32 : Nat) : Int)
  else ((u % 2 ^ 32 : Nat) : Int) - 2 ^ 32

/-- `deserialise_int` (protocol.c:220-226): read 8 big-endian bytes,
return them as a C `int` (truncated to 32 bits) and advance the cursor. -/
def deserialise_int (bs : List Nat) : Int × List Nat :=
  (toInt32 (beVal (bs.take 8)), bs.drop 8)

/-- A C `int` value: 32-bit signed range. -/
def int32_ok (v : Int) : Prop := -(2 ^ 31) ≤ v ∧ v < 2 ^ 31

theorem beBytes_length (n k : Nat) : (beBytes n k).length = k := by
  induction k generalizing n with
  | zero => simp [beBytes]
  | succ k ih => simp [beBytes, ih]

theorem beVal_beBytes (n k : Nat) (a : Nat) (h : n < 256 ^ k) :
    (beBytes n k).foldl (fun a b => a * 256 + b) a = a * 256 ^ k + n := by
  induction k generalizing n a with
  | zero =>
    have : n = 0 := by omega
    simp [beBytes, this]
  | succ k ih =>
    have hdiv : n / 256 < 256 ^ k := by
      rw [Nat.div_lt_iff_lt_mul (by norm_num)]
      calc n < 256 ^ (k + 1) := h
        _ = 256 ^ k * 256 := by ring
    simp only [beBytes, List.foldl_append, List.foldl_cons, List.foldl_nil]
    rw [ih _ _ hdiv]
    have := Nat.div_add_mod n 256
    ring_nf
    omega

/-- Round trip for the 8-byte big-endian integer codec: any value in the
C `int` range survives serialise/deserialise, and exactly 8 bytes are
consumed. -/
theorem deserialise_serialise_int (v : Int) (h : int32_ok v) (rest : List Nat) :
    deserialise_int (serialise_int v ++ rest) = (v, rest) := by
  obtain ⟨h1, h2⟩ := h
  have hlen : (beBytes ((v % (2 ^ 64 : Int)).toNat) 8).length = 8 := beBytes_length _ _
  have hmodpos : (0 : Int) ≤ v % (2 ^ 64 : Int) := Int.emod_nonneg v (by norm_num)
  have hmodlt : v % (2 ^ 64 : Int) < 2 ^ 64 := Int.emod_lt_of_pos v (by norm_num)
  have hu : ((v % (2 ^ 64 : Int)).toNat) < 256 ^ 8 := by
    have h8 : (256 : Nat) ^ 8 = 2 ^ 64 := by norm_num
    rw [h8]
    omega
  unfold deserialise_int serialise_int
  rw [List.take_left' hlen, List.drop_left' hlen]
  have hval : beVal (beBytes ((v % (2 ^ 64 : Int)).toNat) 8)
      = (v % (2 ^ 64 : Int)).toNat := by
    unfold beVal
    rw [beVal_beBytes _ _ _ hu]
    omega
  rw [hval]
  simp only [Prod.mk.injEq]
  refine ⟨?_, trivial⟩
  simp only [toInt32]
  split <;> omega

/-! ## Elias-gamma codec (protocol.c:228-283) -/

/-- The bit-length loop of `serialise_size_t` (protocol.c:246-248):
`while ((value >> length) > 0) length++`.  The first argument is fuel
(any bound on the number of halvings, e.g. the value itself). -/
def bitLenAux : Nat → Nat → Nat
  | 0, _ => 0
  | fuel + 1, x => if x = 0 then 0 else bitLenAux fuel (x / 2) + 1

/-- Number of binary digits of `x` (0 for 0), as computed by the C loop. -/
def bit_length (x : Nat) : Nat := bitLenAux x x

theorem bitLenAux_zero (fuel : Nat) : bitLenAux fuel 0 = 0 := by
  cases fuel <;> simp [bitLenAux]

theorem bitLenAux_congr (f1 : Nat) : ∀ f2 x, x ≤ f1 → x ≤ f2 →
    bitLenAux f1 x = bitLenAux f2 x := by
  induction f1 with
  | zero =>
    intro f2 x h1 _
    have : x = 0 := by omega
    simp [this, bitLenAux_zero]
  | succ f1 ih =>
    intro f2 x h1 h2
    rcases Nat.eq_zero_or_pos x with hx | hx
    · simp [hx, bitLenAux_zero]
    · obtain ⟨f2p, rfl⟩ : ∃ f2p, f2 = f2p + 1 := ⟨f2 - 1, by omega⟩
      have hx0 : x ≠ 0 := by omega
      simp only [bitLenAux, if_neg hx0]
      rw [ih f2p (x / 2) (by omega) (by omega)]

/-- The recurrence satisfied by the C bit-length loop. -/
theorem bit_length_rec (x : Nat) :
    bit_length x = if x = 0 then 0 else bit_length (x / 2) + 1 := by
  cases x with
  | zero => simp [bit_length, bitLenAux]
  | succ n =>
    have h1 : bit_length (n + 1) = bitLenAux n ((n + 1) / 2) + 1 := by
      simp [bit_length, bitLenAux]
    have h2 : bitLenAux n ((n + 1) / 2) = bit_length ((n + 1) / 2) :=
      bitLenAux_congr n ((n + 1) / 2) ((n + 1) / 2) (by omega) (le_refl _)
    rw [h1, h2, if_neg (by omega)]

theorem bit_length_pos {x : Nat} (hx : 0 < x) : 0 < bit_length x := by
  rw [bit_length_rec, if_neg (by omega)]
  omega

theorem bit_length_bounds {x : Nat} (hx : 0 < x) :
    2 ^ (bit_length x - 1) ≤ x ∧ x < 2 ^ bit_length x := by
  induction x using Nat.strong_induction_on with
  | _ x ih =>
    rcases Nat.lt_or_ge x 2 with hx2 | hx2
    · have hx1 : x = 1 := by omega
      subst hx1
      have h1 : bit_length 1 = 1 := by
        rw [bit_length_rec]
        simp [bit_length, bitLenAux_zero]
      rw [h1]
      norm_num
    · have hdiv : 0 < x / 2 := by omega
      have hlt : x / 2 < x := by omega
      obtain ⟨ihl, ihr⟩ := ih (x / 2) hlt hdiv
      have hrec : bit_length x = bit_length (x / 2) + 1 := by
        rw [bit_length_rec, if_neg (by omega)]
      have hp := bit_length_pos hdiv
      constructor
      · rw [hrec]
        have : 2 ^ (bit_length (x / 2) + 1 - 1) = 2 * 2 ^ (bit_length (x / 2) - 1) := by
          rw [Nat.add_sub_cancel]
          conv_lhs => rw [show bit_length (x / 2) = (bit_length (x / 2) - 1) + 1 by omega]
          ring
        rw [this]
        omega
      · rw [hrec, pow_succ]
        omega

/-- The floor of the base-2 logarithm, computed like the C loop would;
fuel-based like `bitLenAux`. -/
def log2floorAux : Nat → Nat → Nat
  | 0, _ => 0
  | fuel + 1, x => if 2 ≤ x then log2floorAux fuel (x / 2) + 1 else 0

/-- `floor(log2 x)` for `x ≥ 1` (0 for 0 and 1). -/
def log2floor (x : Nat) : Nat := log2floorAux x x

/-- `gamma_code_length` (protocol.c:228-231): `2 * (unsigned)log2(x) + 1`.
For every argument in the protocol's range the double-precision
`floor(log2 x)` equals `log2floor x` (see `log2floor_eq_log2`). -/
def gamma_code_length (x : Nat) : Nat := 2 * log2floor x + 1

theorem log2floorAux_congr (f1 : Nat) : ∀ f2 x, x ≤ f1 → x ≤ f2 →
    log2floorAux f1 x = log2floorAux f2 x := by
  induction f1 with
  | zero =>
    intro f2 x h1 _
    have hx : x = 0 := by omega
    subst hx
    cases f2 <;> simp [log2floorAux]
  | succ f1 ih =>
    intro f2 x h1 h2
    rcases Nat.lt_or_ge x 2 with hx | hx
    · cases f2 with
      | zero =>
        have hx0 : x = 0 := by omega
        subst hx0
        simp [log2floorAux]
      | succ f2p =>
        simp only [log2floorAux]
        rw [if_neg (by omega : ¬ 2 ≤ x), if_neg (by omega : ¬ 2 ≤ x)]
    · obtain ⟨f2p, rfl⟩ : ∃ f2p, f2 = f2p + 1 := ⟨f2 - 1, by omega⟩
      simp only [log2floorAux, if_pos hx]
      rw [ih f2p (x / 2) (by omega) (by omega)]

theorem log2floor_rec (x : Nat) :
    log2floor x = if 2 ≤ x then log2floor (x / 2) + 1 else 0 := by
  cases x with
  | zero => simp [log2floor, log2floorAux]
  | succ n =>
    rcases Nat.lt_or_ge (n + 1) 2 with hx | hx
    · simp only [log2floor, log2floorAux, if_neg (by omega : ¬ 2 ≤ n + 1)]
    · have h1 : log2floor (n + 1) = log2floorAux n ((n + 1) / 2) + 1 := by
        simp only [log2floor, log2floorAux]
        rw [if_pos hx]
      have h2 : log2floorAux n ((n + 1) / 2) = log2floor ((n + 1) / 2) :=
        log2floorAux_congr n ((n + 1) / 2) ((n + 1) / 2) (by omega) (le_refl _)
      rw [h1, h2, if_pos hx]

theorem log2floor_succ_eq_bit_length {x : Nat} (hx : 0 < x) :
    log2floor x + 1 = bit_length x := by
  induction x using Nat.strong_induction_on with
  | _ x ih =>
    rcases Nat.lt_or_ge x 2 with hx2 | hx2
    · have hx1 : x = 1 := by omega
      subst hx1
      decide
    · have hdiv : 0 < x / 2 := by omega
      have hlt : x / 2 < x := by omega
      have h1 : log2floor x = log2floor (x / 2) + 1 := by
        rw [log2floor_rec, if_pos hx2]
      have h2 : bit_length x = bit_length (x / 2) + 1 := by
        rw [bit_length_rec, if_neg (by omega)]
      have := ih (x / 2) hlt hdiv
      omega

/-- The C `(unsigned)log2(x)` agrees with Mathlib's `Nat.log2`. -/
theorem log2floor_eq_log2 {x : Nat} (hx : 0 < x) :
    log2floor x = Nat.log2 x := by
  obtain ⟨hl, hr⟩ := bit_length_bounds hx
  have hb := log2floor_succ_eq_bit_length hx
  rw [Nat.log2_eq_log_two]
  have hlog : Nat.log 2 x = bit_length x - 1 := by
    apply Nat.log_eq_of_pow_le_of_lt_pow hl
    rw [show bit_length x - 1 + 1 = bit_length x by omega]
    exact hr
  omega

/-- `serialise_size_t` (protocol.c:233-262): encode `v+1` in Elias-gamma
form, one bit per byte: `L-1` zero bytes, one `0x01` byte, then the
`L-1` low bits of `v+1` most-significant first. -/
def serialise_size_t (v : Nat) : List Nat :=
  let value := v + 1
  let length := bit_length value
  List.replicate (length - 1) 0 ++ [1] ++
    (List.range (length - 1)).reverse.map (fun i => (value >>> i) &&& 1)

/-- `deserialise_size_t` (protocol.c:264-283): count leading zero bytes,
then fold the next `length+1` bytes with `value = (value << 1) | byte`,
and return `value - 1`; the cursor advances by `2*length + 1` bytes. -/
def deserialise_size_t (b : List Nat) : Nat × List Nat :=
  let length := (b.takeWhile (fun y => y == 0)).length
  let value := ((b.drop length).take (length + 1)).foldl (fun v y => (v <<< 1) ||| y) 0
  (value - 1, b.drop (length + (length + 1)))

theorem gamma_step_eq (a b : Nat) (hb : b < 2) : (a <<< 1) ||| b = 2 * a + b := by
  rw [Nat.shiftLeft_eq]
  interval_cases b
  · simp [Nat.mul_comm]
  · have h1 : a * 2 ^ 1 = Nat.bit false a := by
      simp [Nat.bit_val, Nat.mul_comm]
    have h2 : (1 : Nat) = Nat.bit true 0 := by
      simp [Nat.bit_val]
    rw [h1, h2, Nat.lor_bit]
    simp [Nat.bit_val, Nat.mul_comm]

theorem takeWhile_zeros (k : Nat) (l : List Nat) :
    (List.replicate k 0 ++ 1 :: l).takeWhile (fun y => y == 0) = List.replicate k 0 := by
  induction k with
  | zero => simp [List.takeWhile_cons]
  | succ k ih => simp [List.replicate_succ, List.takeWhile_cons, ih]

/-- Folding the most-significant-first bit list of `x` accumulates `x`. -/
theorem foldl_bits (x : Nat) (hx : 0 < x) : ∀ a : Nat,
    ((List.range (bit_length x)).reverse.map
        (fun i => (x >>> i) &&& 1)).foldl (fun v y => (v <<< 1) ||| y) a
      = a * 2 ^ bit_length x + x := by
  induction x using Nat.strong_induction_on with
  | _ x ih =>
    intro a
    rcases Nat.lt_or_ge x 2 with hx2 | hx2
    · have hx1 : x = 1 := by omega
      subst hx1
      have h1 : bit_length 1 = 1 := by decide
      rw [h1]
      have hlist : (List.range 1).reverse.map (fun i => ((1 : Nat) >>> i) &&& 1)
          = [1] := by decide
      rw [hlist]
      simp only [List.foldl_cons, List.foldl_nil]
      rw [gamma_step_eq a 1 (by omega)]
      ring
    · have hdiv : 0 < x / 2 := by omega
      have hlt : x / 2 < x := by omega
      have hrec : bit_length x = bit_length (x / 2) + 1 := by
        rw [bit_length_rec, if_neg (by omega)]
      rw [hrec]
      rw [List.range_succ_eq_map, List.reverse_cons, List.map_append]
      have hcomp : List.map (fun i => (x >>> i) &&& 1)
          ((List.map Nat.succ (List.range (bit_length (x / 2)))).reverse)
          = List.map (fun i => ((x / 2) >>> i) &&& 1)
              (List.range (bit_length (x / 2))).reverse := by
        rw [← List.map_reverse, List.map_map]
        apply List.map_congr_left
        intro i _
        simp only [Function.comp_apply, Nat.succ_eq_add_one]
        congr 1
        rw [Nat.shiftRight_eq_div_pow, Nat.shiftRight_eq_div_pow, pow_succ']
        rw [Nat.div_div_eq_div_mul]
      rw [hcomp, List.foldl_append]
      rw [ih (x / 2) hlt hdiv a]
      simp only [List.map_cons, List.map_nil, List.foldl_cons, List.foldl_nil]
      have hbit : (x >>> 0) &&& 1 = x % 2 := by
        rw [Nat.shiftRight_zero, Nat.and_one_is_mod]
      rw [hbit, gamma_step_eq _ _ (by omega)]
      have hdm := Nat.div_add_mod x 2
      rw [pow_succ]
      have hre : 2 * (a * 2 ^ bit_length (x / 2) + x / 2) + x % 2
          = a * (2 ^ bit_length (x / 2) * 2) + (2 * (x / 2) + x % 2) := by ring
      rw [hre, hdm]

theorem serialise_size_t_length (v : Nat) :
    (serialise_size_t v).length = 2 * bit_length (v + 1) - 1 := by
  have hp := bit_length_pos (show 0 < v + 1 by omega)
  simp [serialise_size_t]
  omega

/-- Gamma round trip with an arbitrary tail: decoding starts at the
first encoded byte, recovers `v` and consumes exactly the encoding. -/
theorem deserialise_serialise_size_t (v : Nat) (rest : List Nat) :
    deserialise_size_t (serialise_size_t v ++ rest) = (v, rest) := by
  have hxpos : 0 < v + 1 := by omega
  have hp := bit_length_pos hxpos
  obtain ⟨hlow, hhigh⟩ := bit_length_bounds hxpos
  set L := bit_length (v + 1) with hL
  set bits := (List.range (L - 1)).reverse.map (fun i => ((v + 1) >>> i) &&& 1)
      with hbits
  have hbitslen : bits.length = L - 1 := by simp [hbits]
  have hshape : serialise_size_t v ++ rest
      = List.replicate (L - 1) 0 ++ 1 :: (bits ++ rest) := by
    simp [serialise_size_t, hbits, ← hL]
  rw [hshape]
  simp only [deserialise_size_t]
  have htw : ((List.replicate (L - 1) 0 ++ 1 :: (bits ++ rest)).takeWhile
      (fun y => y == 0)).length = L - 1 := by
    rw [takeWhile_zeros]
    simp
  rw [htw]
  have hreplen : (List.replicate (L - 1) (0 : Nat)).length = L - 1 := by simp
  have hdrop1 : (List.replicate (L - 1) 0 ++ 1 :: (bits ++ rest)).drop (L - 1)
      = 1 :: (bits ++ rest) := List.drop_left' hreplen
  rw [hdrop1]
  have htop : ((v + 1) >>> (L - 1)) &&& 1 = 1 := by
    rw [Nat.shiftRight_eq_div_pow, Nat.and_one_is_mod]
    have h1 : 1 ≤ (v + 1) / 2 ^ (L - 1) := (Nat.one_le_div_iff (by positivity)).2 hlow
    have hpow : 2 ^ L = 2 ^ (L - 1) * 2 := by
      conv_lhs => rw [show L = (L - 1) + 1 by omega]
      rw [pow_succ]
    have h2 : (v + 1) / 2 ^ (L - 1) < 2 := by
      rw [Nat.div_lt_iff_lt_mul (by positivity)]
      omega
    omega
  have hfull : (1 : Nat) :: bits
      = (List.range L).reverse.map (fun i => ((v + 1) >>> i) &&& 1) := by
    conv_rhs => rw [show L = (L - 1) + 1 by omega]
    rw [List.range_succ, List.reverse_append, List.reverse_singleton,
      List.singleton_append, List.map_cons]
    rw [htop]
  have htake : ((1 : Nat) :: (bits ++ rest)).take (L - 1 + 1)
      = 1 :: bits := by
    simp only [List.take_succ_cons]
    congr 1
    rw [List.take_left' hbitslen]
  rw [htake]
  have hfold : ((1 : Nat) :: bits).foldl (fun v y => (v <<< 1) ||| y) 0
      = v + 1 := by
    rw [hfull, foldl_bits (v + 1) hxpos 0]
    omega
  rw [hfold]
  have hdroplen : (List.replicate (L - 1) 0 ++ 1 :: (bits ++ rest)).drop
      (L - 1 + (L - 1 + 1)) = rest := by
    have hlen2 : (List.replicate (L - 1) (0 : Nat) ++ 1 :: bits).length
        = L - 1 + (L - 1 + 1) := by
      simp [hbitslen]
    have hassoc : List.replicate (L - 1) (0 : Nat) ++ 1 :: (bits ++ rest)
        = (List.replicate (L - 1) 0 ++ 1 :: bits) ++ rest := by
      simp
    rw [hassoc, List.drop_left' hlen2]
  rw [hdroplen]
  simp

/-! ## String and payload codecs (protocol.c:285-368) -/

/-- `serialise_string` (protocol.c:285-291): gamma-encode `strlen+1`,
then append the bytes of the string followed by its terminating null.
A C string is modelled as its list of (non-null) content bytes. -/
def serialise_string (s : List Nat) : List Nat :=
  serialise_size_t (s.length + 1) ++ (s ++ [0])

/-- `deserialise_string` (protocol.c:293-298): gamma-decode the length,
copy the null-terminated string at the cursor (`new_string` stops at the
first null byte) and advance the cursor by the decoded length. -/
def deserialise_string (bs : List Nat) : List Nat × List Nat :=
  let p := deserialise_size_t bs
  (p.2.takeWhile (fun b => b != 0), p.2.drop p.1)

/-- The `rpc_data` struct from rpc.h: `data2 = none` models a NULL
`data2` pointer. -/
structure rpc_data where
  data1 : Int
  data2_len : Nat
  data2 : Option (List Nat)
  deriving Repr, DecidableEq

/-- `new_rpc_data` (protocol.c:344-357): a NULL `data2` is stored when
`data2_len == 0`, otherwise exactly `data2_len` bytes are copied from
the source (`List.take` models the `memcpy`). -/
def new_rpc_data (data1 : Int) (data2_len : Nat) (data2 : List Nat) : rpc_data :=
  if data2_len = 0 then ⟨data1, data2_len, none⟩
  else ⟨data1, data2_len, some (data2.take data2_len)⟩

/-- `serialise_rpc_data` (protocol.c:300-310): `data1`, then the gamma
length, then — only when `data2_len > 0 && data2 != NULL` — the
`data2_len` payload bytes. -/
def serialise_rpc_data (d : rpc_data) : List Nat :=
  serialise_int d.data1 ++ serialise_size_t d.data2_len ++
    (match d.data2 with
     | some bs => if 0 < d.data2_len then bs.take d.data2_len else []
     | none => [])

/-- `deserialise_rpc_data` (protocol.c:312-318). -/
def deserialise_rpc_data (bs : List Nat) : rpc_data × List Nat :=
  let p1 := deserialise_int bs
  let p2 := deserialise_size_t p1.2
  (new_rpc_data p1.1 p2.1 p2.2, p2.2.drop p2.1)

/-- Well-formedness of a payload (spec §3): `data2_len == 0` iff `data2`
is absent, and a present `data2` owns exactly `data2_len` bytes. -/
def WellFormedData (d : rpc_data) : Prop :=
  match d.data2 with
  | none => d.data2_len = 0
  | some bs => 0 < d.data2_len ∧ bs.length = d.data2_len

instance (d : rpc_data) : Decidable (WellFormedData d) := by
  unfold WellFormedData
  cases d.data2 <;> infer_instance

/-- The `rpc_message` struct (protocol.h / rpc.c); `operation` is kept
as the C enum's integer value. -/
structure rpc_message where
  request_id : Int
  operation : Int
  function_name : List Nat
  data : rpc_data
  deriving Repr, DecidableEq

/-- `serialise_rpc_message` (protocol.c:320-325). -/
def serialise_rpc_message (m : rpc_message) : List Nat :=
  serialise_int m.request_id ++ serialise_int m.operation ++
    serialise_string m.function_name ++ serialise_rpc_data m.data

/-- `deserialise_rpc_message` (protocol.c:327-335). -/
def deserialise_rpc_message (bs : List Nat) : rpc_message × List Nat :=
  let p1 := deserialise_int bs
  let p2 := deserialise_int p1.2
  let p3 := deserialise_string p2.2
  let p4 := deserialise_rpc_data p3.2
  (⟨p1.1, p2.1, p3.1, p4.1⟩, p4.2)

/-- Well-formedness of a message: well-formed payload, non-empty
function name without embedded null bytes, and all integer fields in
the C `int` range. -/
def WellFormedMessage (m : rpc_message) : Prop :=
  WellFormedData m.data ∧ m.function_name ≠ [] ∧ (∀ b ∈ m.function_name, b ≠ 0)
    ∧ int32_ok m.request_id ∧ int32_ok m.operation ∧ int32_ok m.data.data1

theorem takeWhile_no_null (s : List Nat) (tail : List Nat) (hs : ∀ b ∈ s, b ≠ 0) :
    (s ++ 0 :: tail).takeWhile (fun b => b != 0) = s := by
  induction s with
  | nil => simp
  | cons a s ih =>
    have ha : a ≠ 0 := hs a (by simp)
    have hrec := ih (fun b hb => hs b (by simp [hb]))
    simp only [List.cons_append, List.takeWhile_cons]
    simp [ha, hrec]

theorem deserialise_serialise_string (s : List Nat) (hs : ∀ b ∈ s, b ≠ 0)
    (rest : List Nat) :
    deserialise_string (serialise_string s ++ rest) = (s, rest) := by
  unfold serialise_string deserialise_string
  rw [List.append_assoc, deserialise_serialise_size_t]
  simp only
  have hshape : (s ++ [0]) ++ rest = s ++ 0 :: rest := by simp
  rw [hshape, takeWhile_no_null s rest hs]
  have hlen : (s ++ [0]).length = s.length + 1 := by simp
  have hdrop : (s ++ 0 :: rest).drop (s.length + 1) = rest := by
    rw [← hshape, List.drop_left' hlen]
  rw [hdrop]

theorem deserialise_serialise_rpc_data (d : rpc_data) (hwf : WellFormedData d)
    (h1 : int32_ok d.data1) (rest : List Nat) :
    deserialise_rpc_data (serialise_rpc_data d ++ rest) = (d, rest) := by
  obtain ⟨d1, len, data2⟩ := d
  cases data2 with
  | none =>
    have hlen0 : len = 0 := hwf
    subst hlen0
    simp only [serialise_rpc_data, deserialise_rpc_data]
    rw [List.append_nil, List.append_assoc, deserialise_serialise_int d1 h1]
    simp only
    rw [deserialise_serialise_size_t]
    simp [new_rpc_data]
  | some bs =>
    have hwf2 : 0 < len ∧ bs.length = len := hwf
    obtain ⟨hpos, hblen⟩ := hwf2
    simp only [serialise_rpc_data, deserialise_rpc_data]
    rw [if_pos hpos]
    have htake : bs.take len = bs := by
      rw [← hblen]
      simp
    rw [htake, List.append_assoc, List.append_assoc, deserialise_serialise_int d1 h1]
    simp only
    rw [deserialise_serialise_size_t]
    simp only
    rw [new_rpc_data, if_neg (by omega)]
    have htake2 : (bs ++ rest).take len = bs := List.take_left' hblen
    have hdrop2 : (bs ++ rest).drop len = rest := List.drop_left' hblen
    rw [htake2, hdrop2]

theorem deserialise_serialise_rpc_message (m : rpc_message)
    (hwf : WellFormedMessage m) (rest : List Nat) :
    deserialise_rpc_message (serialise_rpc_message m ++ rest) = (m, rest) := by
  obtain ⟨hd, _, hname, hrid, hop, hd1⟩ := hwf
  obtain ⟨rid, op, name, d⟩ := m
  simp only [serialise_rpc_message, deserialise_rpc_message]
  rw [List.append_assoc, List.append_assoc, List.append_assoc,
    deserialise_serialise_int rid hrid]
  simp only
  rw [deserialise_serialise_int op hop]
  simp only
  rw [deserialise_serialise_string name hname]
  simp only
  rw [deserialise_serialise_rpc_data d hd hd1]

/-- C1: for every well-formed payload and every well-formed message
(non-empty no-null function name, well-formed payload), deserialising
the serialised bytes from the first byte returns the original value and
leaves exactly the trailing bytes. -/
theorem roundtrip_data_and_message :
    (∀ (p : rpc_data) (rest : List Nat), WellFormedData p → int32_ok p.data1 →
      deserialise_rpc_data (serialise_rpc_data p ++ rest) = (p, rest))
    ∧ (∀ (m : rpc_message) (rest : List Nat), WellFormedMessage m →
      deserialise_rpc_message (serialise_rpc_message m ++ rest) = (m, rest)) :=
  ⟨fun p rest hwf h1 => deserialise_serialise_rpc_data p hwf h1 rest,
   fun m rest hwf => deserialise_serialise_rpc_message m hwf rest⟩

/-- Witness for C1 at a concrete payload and message. -/
theorem roundtrip_data_and_message_witness :
    deserialise_rpc_data (serialise_rpc_data ⟨5, 2, some [7, 8]⟩ ++ [])
        = (⟨5, 2, some [7, 8]⟩, [])
    ∧ deserialise_rpc_message
        (serialise_rpc_message ⟨123, 1, [97, 100], ⟨5, 2, some [7, 8]⟩⟩ ++ [9])
        = (⟨123, 1, [97, 100], ⟨5, 2, some [7, 8]⟩⟩, [9]) :=
  ⟨roundtrip_data_and_message.1 ⟨5, 2, some [7, 8]⟩ [] (by decide) (by norm_num [int32_ok]),
   roundtrip_data_and_message.2 ⟨123, 1, [97, 100], ⟨5, 2, some [7, 8]⟩⟩ [9]
     (by refine ⟨by decide, by decide, by decide, ?_, ?_, ?_⟩ <;> norm_num [int32_ok])⟩

/-- C2: for every `v ≤ 1,000,000` the gamma codec round-trips and the
encoding occupies exactly `gamma_code_length (v+1)` =
`2*floor(log2(v+1)) + 1` bytes. -/
theorem gamma_roundtrip_and_length (v : Nat) (h : v ≤ 1000000) :
    (deserialise_size_t (serialise_size_t v)).1 = v
    ∧ (serialise_size_t v).length = gamma_code_length (v + 1)
    ∧ gamma_code_length (v + 1) = 2 * Nat.log2 (v + 1) + 1 := by
  have hb := log2floor_succ_eq_bit_length (show 0 < v + 1 by omega)
  refine ⟨?_, ?_, ?_⟩
  · have hrt := deserialise_serialise_size_t v []
    rw [List.append_nil] at hrt
    rw [hrt]
  · rw [serialise_size_t_length]
    simp only [gamma_code_length]
    omega
  · simp only [gamma_code_length]
    rw [log2floor_eq_log2 (show 0 < v + 1 by omega)]

/-- Witness for C2 at `v = 6`. -/
theorem gamma_roundtrip_and_length_witness :
    6 ≤ 1000000
    ∧ ((deserialise_size_t (serialise_size_t 6)).1 = 6
       ∧ (serialise_size_t 6).length = gamma_code_length 7
       ∧ gamma_code_length 7 = 2 * Nat.log2 7 + 1) :=
  ⟨by norm_num, gamma_roundtrip_and_length 6 (by norm_num)⟩

/-! ## Handler registry (hashtable.c, rpc.c:122-147) -/

/-- `rpc_handler` from rpc.h: a handler takes a payload and returns a
payload or NULL. -/
def Handler : Type := rpc_data → Option rpc_data

/-- `HASHTABLE_SIZE` from config.h. -/
def HASHTABLE_SIZE : Nat := 100

/-- djb2 (hashtable.c:14-21); `unsigned long` arithmetic wraps mod
`2^64`.  A key is the list of the C string's (non-null) bytes. -/
def hash (s : List Nat) : Nat :=
  s.foldl (fun h c => ((h <<< 5) + h + c) % 2 ^ 64) 5381

/-- The hash table (hashtable.c): an array of buckets, each a list of
`(key, data)` items, newest first.  `size` is the list length. -/
structure hashtable_t (α : Type) where
  table : List (List (List Nat × α))

/-- `hashtable_create` (hashtable.c:23-35). -/
def hashtable_create (α : Type) (size : Nat) : hashtable_t α :=
  ⟨List.replicate size []⟩

/-- The chain walk of `hashtable_lookup` (hashtable.c:68-75). -/
def bucket_lookup {α : Type} : List (List Nat × α) → List Nat → Option α
  | [], _ => none
  | (k, d) :: rest, key => if k = key then some d else bucket_lookup rest key

/-- `hashtable_lookup` (hashtable.c:65-76). -/
def hashtable_lookup {α : Type} (ht : hashtable_t α) (key : List Nat) : Option α :=
  bucket_lookup (ht.table.getD (hash key % ht.table.length) []) key

/-- The chain walk of `hashtable_remove` (hashtable.c:81-97): unlink
the first item whose key matches, leave the rest. -/
def bucket_remove {α : Type} : List (List Nat × α) → List Nat → List (List Nat × α)
  | [], _ => []
  | (k, d) :: rest, key => if k = key then rest else (k, d) :: bucket_remove rest key

/-- `hashtable_remove` (hashtable.c:78-98). -/
def hashtable_remove {α : Type} (ht : hashtable_t α) (key : List Nat) : hashtable_t α :=
  let idx := hash key % ht.table.length
  ⟨ht.table.set idx (bucket_remove (ht.table.getD idx []) key)⟩

/-- `hashtable_insert` (hashtable.c:54-63): prepend the new item to its
bucket. -/
def hashtable_insert {α : Type} (ht : hashtable_t α) (key : List Nat) (data : α) :
    hashtable_t α :=
  let idx := hash key % ht.table.length
  ⟨ht.table.set idx ((key, data) :: ht.table.getD idx [])⟩

/-- Number of items with the given key in one bucket. -/
def countBucket {α : Type} (b : List (List Nat × α)) (key : List Nat) : Nat :=
  (b.filter (fun e => e.1 == key)).length

/-- Number of items with the given key in the whole table. -/
def countEntries {α : Type} (ht : hashtable_t α) (key : List Nat) : Nat :=
  (ht.table.map (fun b => countBucket b key)).sum

/-- `rpc_register` (rpc.c:122-147): NULL checks, remove an existing
entry with this name, insert, and report whether the re-lookup finds
it.  Returns the updated server state and the C return code. -/
def rpc_register (srv : Option (hashtable_t Handler)) (name : Option (List Nat))
    (handler : Option Handler) : Option (hashtable_t Handler) × Int :=
  match srv, name, handler with
  | some t, some n, some h =>
    let t1 := if (hashtable_lookup t n).isSome then hashtable_remove t n else t
    let t2 := hashtable_insert t1 n h
    match hashtable_lookup t2 n with
    | none => (some t2, FAILED)
    | some _ => (some t2, 0)
  | _, _, _ => (srv, FAILED)

theorem getD_set_self {β : Type} (d : β) :
    ∀ (l : List β) (i : Nat) (x : β), i < l.length → (l.set i x).getD i d = x := by
  intro l
  induction l with
  | nil => intro i x h; simp at h
  | cons a tl ih =>
    intro i x h
    cases i with
    | zero => simp
    | succ i =>
      simp only [List.set_cons_succ, List.getD_cons_succ]
      exact ih i x (by simpa using h)

theorem getD_set_ne {β : Type} (d : β) :
    ∀ (l : List β) (i j : Nat) (x : β), i ≠ j → (l.set i x).getD j d = l.getD j d := by
  intro l
  induction l with
  | nil => intro i j x _; simp
  | cons a tl ih =>
    intro i j x hij
    cases i with
    | zero =>
      cases j with
      | zero => omega
      | succ j => simp
    | succ i =>
      cases j with
      | zero => simp
      | succ j =>
        simp only [List.set_cons_succ, List.getD_cons_succ]
        exact ih i j x (by omega)

theorem length_set_table {β : Type} (l : List β) (i : Nat) (x : β) :
    (l.set i x).length = l.length := List.length_set l i x

theorem bucket_lookup_cons_self {α : Type} (n : List Nat) (h : α)
    (b : List (List Nat × α)) : bucket_lookup ((n, h) :: b) n = some h := by
  simp [bucket_lookup]

theorem countBucket_cons_self {α : Type} (n : List Nat) (h : α)
    (b : List (List Nat × α)) : countBucket ((n, h) :: b) n = countBucket b n + 1 := by
  simp [countBucket, List.filter_cons]

theorem bucket_lookup_none_iff {α : Type} (key : List Nat) :
    ∀ (b : List (List Nat × α)), bucket_lookup b key = none ↔ countBucket b key = 0 := by
  intro b
  induction b with
  | nil => simp [bucket_lookup, countBucket]
  | cons e tl ih =>
    obtain ⟨k, d⟩ := e
    by_cases hk : k = key
    · subst hk
      simp [bucket_lookup, countBucket, List.filter_cons]
    · simp only [bucket_lookup, if_neg hk, countBucket, List.filter_cons]
      have : (k == key) = false := by simpa using hk
      simp [this, ih, countBucket]

theorem countBucket_cons_ne {α : Type} (k key : List Nat) (d : α)
    (b : List (List Nat × α)) (hk : k ≠ key) :
    countBucket ((k, d) :: b) key = countBucket b key := by
  have hne : (k == key) = false := by simpa using hk
  simp [countBucket, List.filter_cons, hne]

theorem countBucket_remove {α : Type} (key : List Nat) :
    ∀ (b : List (List Nat × α)), bucket_lookup b key ≠ none →
      countBucket (bucket_remove b key) key = countBucket b key - 1 := by
  intro b
  induction b with
  | nil => intro h; simp [bucket_lookup] at h
  | cons e tl ih =>
    obtain ⟨k, d⟩ := e
    intro h
    by_cases hk : k = key
    · subst hk
      simp [bucket_remove, countBucket_cons_self]
    · simp only [bucket_remove, if_neg hk]
      rw [countBucket_cons_ne k key d _ hk, countBucket_cons_ne k key d tl hk]
      apply ih
      simpa [bucket_lookup, if_neg hk] using h

theorem countEntries_zero_aux {α : Type} (key : List Nat) :
    ∀ (l : List (List (List Nat × α))),
      (∀ j, j < l.length → countBucket (l.getD j []) key = 0) →
      (l.map (fun b => countBucket b key)).sum = 0 := by
  intro l
  induction l with
  | nil => intro _; simp
  | cons b tl ih =>
    intro h
    simp only [List.map_cons, List.sum_cons]
    have h0 : countBucket b key = 0 := by
      have := h 0 (by simp)
      simpa using this
    have hr : (tl.map (fun b => countBucket b key)).sum = 0 := by
      apply ih
      intro j hj
      have := h (j + 1) (by simpa using hj)
      simpa using this
    omega

theorem countEntries_eq_home_aux {α : Type} (key : List Nat) :
    ∀ (l : List (List (List Nat × α))) (idx : Nat), idx < l.length →
      (∀ j, j < l.length → j ≠ idx → countBucket (l.getD j []) key = 0) →
      (l.map (fun b => countBucket b key)).sum = countBucket (l.getD idx []) key := by
  intro l
  induction l with
  | nil => intro idx h; simp at h
  | cons b tl ih =>
    intro idx hidx h
    cases idx with
    | zero =>
      simp only [List.map_cons, List.sum_cons, List.getD_cons_zero]
      have hr : (tl.map (fun bb => countBucket bb key)).sum = 0 := by
        apply countEntries_zero_aux
        intro j hj
        have := h (j + 1) (by simpa using hj) (by omega)
        simpa using this
      omega
    | succ idx =>
      simp only [List.map_cons, List.sum_cons, List.getD_cons_succ]
      have h0 : countBucket b key = 0 := by
        have := h 0 (by simp) (by omega)
        simpa using this
      have hr := ih idx (by simpa using hidx)
        (fun j hj hne => by
          have := h (j + 1) (by simpa using hj) (by omega)
          simpa using this)
      omega

theorem hashtable_remove_length {α : Type} (t : hashtable_t α) (n : List Nat) :
    (hashtable_remove t n).table.length = t.table.length := by
  simp [hashtable_remove]

theorem hashtable_insert_length {α : Type} (t : hashtable_t α) (n : List Nat) (h : α) :
    (hashtable_insert t n h).table.length = t.table.length := by
  simp [hashtable_insert]

theorem hashtable_insert_getD_home {α : Type} (t : hashtable_t α) (n : List Nat) (h : α)
    (hsize : 0 < t.table.length) :
    (hashtable_insert t n h).table.getD (hash n % t.table.length) []
      = (n, h) :: t.table.getD (hash n % t.table.length) [] := by
  simp only [hashtable_insert]
  exact getD_set_self [] t.table _ _ (Nat.mod_lt _ hsize)

theorem hashtable_insert_getD_ne {α : Type} (t : hashtable_t α) (n : List Nat) (h : α)
    (j : Nat) (hj : j ≠ hash n % t.table.length) :
    (hashtable_insert t n h).table.getD j [] = t.table.getD j [] := by
  simp only [hashtable_insert]
  exact getD_set_ne [] t.table _ j _ (fun e => hj e.symm)

theorem hashtable_remove_getD_home {α : Type} (t : hashtable_t α) (n : List Nat)
    (hsize : 0 < t.table.length) :
    (hashtable_remove t n).table.getD (hash n % t.table.length) []
      = bucket_remove (t.table.getD (hash n % t.table.length) []) n := by
  simp only [hashtable_remove]
  exact getD_set_self [] t.table _ _ (Nat.mod_lt _ hsize)

theorem hashtable_remove_getD_ne {α : Type} (t : hashtable_t α) (n : List Nat)
    (j : Nat) (hj : j ≠ hash n % t.table.length) :
    (hashtable_remove t n).table.getD j [] = t.table.getD j [] := by
  simp only [hashtable_remove]
  exact getD_set_ne [] t.table _ j _ (fun e => hj e.symm)

theorem hashtable_lookup_insert {α : Type} (t : hashtable_t α) (n : List Nat) (h : α)
    (hsize : 0 < t.table.length) :
    hashtable_lookup (hashtable_insert t n h) n = some h := by
  unfold hashtable_lookup
  rw [hashtable_insert_length, hashtable_insert_getD_home t n h hsize,
    bucket_lookup_cons_self]

theorem countEntries_eq_home {α : Type} (t : hashtable_t α) (n : List Nat) (idx : Nat)
    (hidx : idx < t.table.length)
    (hz : ∀ j, j < t.table.length → j ≠ idx → countBucket (t.table.getD j []) n = 0) :
    countEntries t n = countBucket (t.table.getD idx []) n :=
  countEntries_eq_home_aux n t.table idx hidx hz

theorem register_some_eq (t : hashtable_t Handler) (n : List Nat) (h : Handler)
    (hsize : 0 < t.table.length) :
    (rpc_register (some t) (some n) (some h)).1
        = some (hashtable_insert
            (if (hashtable_lookup t n).isSome then hashtable_remove t n else t) n h)
    ∧ (rpc_register (some t) (some n) (some h)).2 = 0 := by
  have hlen : (if (hashtable_lookup t n).isSome then hashtable_remove t n
      else t).table.length = t.table.length := by
    split
    · exact hashtable_remove_length t n
    · rfl
  have hlook := hashtable_lookup_insert
    (if (hashtable_lookup t n).isSome then hashtable_remove t n else t) n h
    (by rw [hlen]; exact hsize)
  simp only [rpc_register]
  rw [hlook]
  exact ⟨rfl, rfl⟩

/-- C7: after registering `h1` then `h2` under the same name, lookup
returns `h2` and the registry holds exactly one entry for the name.
The hypotheses state that the starting registry is reachable: at most
one entry for the name, all of them in the name's home bucket. -/
theorem registry_overwrite (t : hashtable_t Handler) (n : List Nat) (h1 h2 : Handler)
    (hsize : 0 < t.table.length)
    (hone : countEntries t n ≤ 1)
    (hhome : ∀ j, j < t.table.length → j ≠ hash n % t.table.length →
      countBucket (t.table.getD j []) n = 0) :
    ((rpc_register ((rpc_register (some t) (some n) (some h1)).1) (some n)
        (some h2)).1.map (fun t2 => (hashtable_lookup t2 n, countEntries t2 n)))
      = some (some h2, 1) := by
  have hidx : hash n % t.table.length < t.table.length := Nat.mod_lt _ hsize
  obtain ⟨hr1, _⟩ := register_some_eq t n h1 hsize
  rw [hr1]
  -- the intermediate table after the first register
  set t1a := if (hashtable_lookup t n).isSome then hashtable_remove t n else t with ht1a
  set b0 := t.table.getD (hash n % t.table.length) [] with hb0
  have hlen1a : t1a.table.length = t.table.length := by
    rw [ht1a]
    split
    · exact hashtable_remove_length t n
    · rfl
  have hlt : hashtable_lookup t n = bucket_lookup b0 n := rfl
  -- the home bucket after the conditional removal has no entry for n
  have hb0cnt : countBucket b0 n ≤ 1 := by
    have h := countEntries_eq_home t n (hash n % t.table.length) hidx hhome
    rw [← hb0] at h
    omega
  have ht1a_home : t1a.table.getD (hash n % t.table.length) []
      = (if (bucket_lookup b0 n).isSome then bucket_remove b0 n else b0) := by
    rw [ht1a, hlt]
    split
    · exact hashtable_remove_getD_home t n hsize
    · rfl
  have ht1a_ne : ∀ j, j ≠ hash n % t.table.length →
      t1a.table.getD j [] = t.table.getD j [] := by
    intro j hj
    rw [ht1a]
    split
    · exact hashtable_remove_getD_ne t n j hj
    · rfl
  have hb0cnt0 : countBucket
      (if (bucket_lookup b0 n).isSome then bucket_remove b0 n else b0) n = 0 := by
    by_cases hc : (bucket_lookup b0 n).isSome
    · rw [if_pos hc]
      have hne : bucket_lookup b0 n ≠ none := by
        intro h0
        rw [h0] at hc
        simp at hc
      have hnz : countBucket b0 n ≠ 0 := by
        intro h0
        exact hne ((bucket_lookup_none_iff n b0).2 h0)
      have := countBucket_remove n b0 hne
      omega
    · rw [if_neg hc]
      have hnone : bucket_lookup b0 n = none := by
        cases hcc : bucket_lookup b0 n
        · rfl
        · rw [hcc] at hc; simp at hc
      exact (bucket_lookup_none_iff n b0).1 hnone
  -- the table t1 after the first register
  set t1 := hashtable_insert t1a n h1 with ht1
  have hlen1 : t1.table.length = t.table.length := by
    rw [ht1, hashtable_insert_length, hlen1a]
  have hidx1a : hash n % t1a.table.length = hash n % t.table.length := by rw [hlen1a]
  have ht1_home : t1.table.getD (hash n % t.table.length) []
      = (n, h1) :: (if (bucket_lookup b0 n).isSome then bucket_remove b0 n else b0) := by
    rw [ht1]
    have := hashtable_insert_getD_home t1a n h1 (by rw [hlen1a]; exact hsize)
    rw [hidx1a] at this
    rw [this, ht1a_home]
  have ht1_ne : ∀ j, j ≠ hash n % t.table.length →
      t1.table.getD j [] = t.table.getD j [] := by
    intro j hj
    rw [ht1]
    have := hashtable_insert_getD_ne t1a n h1 j (by rw [hidx1a]; exact hj)
    rw [this]
    exact ht1a_ne j hj
  have hlook1 : hashtable_lookup t1 n = some h1 := by
    rw [ht1]
    exact hashtable_lookup_insert t1a n h1 (by rw [hlen1a]; exact hsize)
  -- second register
  obtain ⟨hr2, _⟩ := register_some_eq t1 n h2 (by rw [hlen1]; exact hsize)
  rw [hr2]
  have hsome1 : (hashtable_lookup t1 n).isSome = true := by rw [hlook1]; rfl
  rw [if_pos hsome1]
  -- the table t2 after the second register
  set t2 := hashtable_insert (hashtable_remove t1 n) n h2 with ht2
  have hlenr : (hashtable_remove t1 n).table.length = t.table.length := by
    rw [hashtable_remove_length, hlen1]
  have hidx1 : hash n % t1.table.length = hash n % t.table.length := by rw [hlen1]
  have hremove_home : (hashtable_remove t1 n).table.getD (hash n % t.table.length) []
      = (if (bucket_lookup b0 n).isSome then bucket_remove b0 n else b0) := by
    have := hashtable_remove_getD_home t1 n (by rw [hlen1]; exact hsize)
    rw [hidx1] at this
    rw [this, ht1_home]
    simp [bucket_remove]
  have hremove_ne : ∀ j, j ≠ hash n % t.table.length →
      (hashtable_remove t1 n).table.getD j [] = t.table.getD j [] := by
    intro j hj
    have := hashtable_remove_getD_ne t1 n j (by rw [hidx1]; exact hj)
    rw [this]
    exact ht1_ne j hj
  have hidxr : hash n % (hashtable_remove t1 n).table.length
      = hash n % t.table.length := by rw [hlenr]
  have ht2_home : t2.table.getD (hash n % t.table.length) []
      = (n, h2) :: (if (bucket_lookup b0 n).isSome then bucket_remove b0 n else b0) := by
    rw [ht2]
    have := hashtable_insert_getD_home (hashtable_remove t1 n) n h2
      (by rw [hlenr]; exact hsize)
    rw [hidxr] at this
    rw [this, hremove_home]
  have ht2_ne : ∀ j, j ≠ hash n % t.table.length →
      t2.table.getD j [] = t.table.getD j [] := by
    intro j hj
    rw [ht2]
    have := hashtable_insert_getD_ne (hashtable_remove t1 n) n h2 j
      (by rw [hidxr]; exact hj)
    rw [this]
    exact hremove_ne j hj
  have hlen2 : t2.table.length = t.table.length := by
    rw [ht2, hashtable_insert_length, hlenr]
  have hlook2 : hashtable_lookup t2 n = some h2 := by
    rw [ht2]
    exact hashtable_lookup_insert (hashtable_remove t1 n) n h2
      (by rw [hlenr]; exact hsize)
  have hcount2 : countEntries t2 n = 1 := by
    have heq := countEntries_eq_home t2 n (hash n % t.table.length)
      (by rw [hlen2]; exact hidx)
      (by
        intro j hj hne
        rw [ht2_ne j hne]
        exact hhome j (by rw [hlen2] at hj; exact hj) hne)
    rw [heq, ht2_home, countBucket_cons_self, hb0cnt0]
  rw [Option.map_some', hlook2, hcount2]

/-- A concrete handler (echoes its argument), used in witnesses. -/
def idHandler : Handler := fun d => some d

/-- A concrete handler (returns an empty payload), used in witnesses. -/
def emptyHandler : Handler := fun _ => some ⟨0, 0, none⟩

/-- Witness for C7: overwrite on a fresh 100-bucket registry. -/
theorem registry_overwrite_witness :
    ((rpc_register ((rpc_register (some (hashtable_create Handler 100)) (some [97])
        (some idHandler)).1) (some [97]) (some emptyHandler)).1.map
        (fun t2 => (hashtable_lookup t2 [97], countEntries t2 [97])))
      = some (some emptyHandler, 1) :=
  registry_overwrite (hashtable_create Handler 100) [97] idHandler emptyHandler
    (by decide) (by decide) (by decide)

/-- C9 counterexample: `rpc_register` accepts the empty name (length 0)
and returns success, where the claim demands failure. -/
theorem register_no_length_check_cex :
    (rpc_register (some (hashtable_create Handler HASHTABLE_SIZE)) (some [])
        (some idHandler)).2 = 0
    ∧ (0 : Int) ≠ FAILED := by
  constructor
  · exact (register_some_eq (hashtable_create Handler HASHTABLE_SIZE) [] idHandler
      (by decide)).2
  · decide

/-- C9 amended: `rpc_register` checks only that its three arguments are
non-NULL; it never inspects the name's length, so every name — empty or
longer than 1000 bytes included — registers successfully. -/
theorem register_null_checks_only :
    (∀ (t : hashtable_t Handler) (n : List Nat) (h : Handler), 0 < t.table.length →
        (rpc_register (some t) (some n) (some h)).2 = 0)
    ∧ (∀ (n : Option (List Nat)) (h : Option Handler),
        rpc_register none n h = (none, FAILED))
    ∧ (∀ (s : Option (hashtable_t Handler)) (h : Option Handler),
        rpc_register s none h = (s, FAILED))
    ∧ (∀ (s : Option (hashtable_t Handler)) (n : Option (List Nat)),
        rpc_register s n none = (s, FAILED)) := by
  refine ⟨?_, ?_, ?_, ?_⟩
  · intro t n h hsize
    exact (register_some_eq t n h hsize).2
  · intro n h
    cases n <;> cases h <;> rfl
  · intro s h
    cases s <;> cases h <;> rfl
  · intro s n
    cases s <;> cases n <;> rfl

/-- Witness for C9's amended statement: a 1001-byte name registers
successfully, and a NULL server is rejected. -/
theorem register_null_checks_only_witness :
    (rpc_register (some (hashtable_create Handler 100))
        (some (List.replicate 1001 97)) (some idHandler)).2 = 0
    ∧ rpc_register none (some [97]) (some idHandler) = (none, FAILED) :=
  ⟨register_null_checks_only.1 (hashtable_create Handler 100)
      (List.replicate 1001 97) idHandler (by decide),
   register_null_checks_only.2.1 (some [97]) (some idHandler)⟩

/-! ## Server dispatch (rpc.c:267-332) and client call (rpc.c:455-484) -/

/-- Operation tags of the `rpc_message` enum in rpc.c / protocol.h:
`FIND = 0`, `CALL = 1`, `REPLY = 2`; the wire carries them as C ints. -/
def FIND : Int := 0

def CALL : Int := 1

def REPLY : Int := 2

/-- The NULL-pointer dereferences `handle_request` can run into.
Calling through or dereferencing a NULL pointer is undefined behaviour
in C; the model makes each such point an explicit error value. -/
inductive server_crash where
  /-- CALL on an unregistered name: `handler` is NULL and
  `handler(msg->data)` (rpc.c:310) calls a NULL function pointer. -/
  | nullHandlerCall
  /-- the handler returned NULL, so the reply's `data` is NULL and
  `serialise_rpc_data` dereferences it during the send. -/
  | nullDataSerialise
  /-- `new_msg` was never assigned (REPLY/default branch), so
  `send_rpc_message(sockfd, NULL)` reaches `serialise_rpc_message`
  (rpc.c:810-816), which dereferences the NULL message. -/
  | nullMessageSend
  deriving Repr, DecidableEq

/-- `handle_request` (rpc.c:267-332): dispatch on the received
operation, build `new_msg`, then unconditionally pass `new_msg` to
`send_rpc_message`.  `Except.ok r` means the server serialises and
sends exactly the reply `r`; `Except.error` marks the NULL dereference
the C code runs into on that path. -/
def handle_request (srv : hashtable_t Handler) (msg : rpc_message) :
    Except server_crash rpc_message :=
  if msg.operation = FIND then
    Except.ok ⟨321, REPLY, msg.function_name,
      new_rpc_data (if (hashtable_lookup srv msg.function_name).isSome then 1 else 0)
        0 []⟩
  else if msg.operation = CALL then
    match hashtable_lookup srv msg.function_name with
    | none => Except.error server_crash.nullHandlerCall
    | some h =>
      match h msg.data with
      | some d => Except.ok ⟨321, REPLY, msg.function_name, d⟩
      | none => Except.error server_crash.nullDataSerialise
  else
    Except.error server_crash.nullMessageSend

/-- The `rpc_handle` struct (rpc.c:385-387). -/
structure rpc_handle where
  name : List Nat
  deriving Repr, DecidableEq

/-- The `rpc_client` struct (rpc.c:379-383). -/
structure rpc_client where
  addr : List Nat
  port : Int
  sockfd : Int

/-- The pure part of `rpc_call` (rpc.c:455-484): NULL checks on the
three arguments, then the CALL request message handed to `request`
(i.e. serialised and transmitted).  `some m` means the client
transmits `m`; `none` means `rpc_call` returns NULL without building a
request. -/
def rpc_call_request (cl : Option rpc_client) (h : Option rpc_handle)
    (payload : Option rpc_data) : Option rpc_message :=
  match cl, h, payload with
  | some _, some hh, some p => some ⟨123, CALL, hh.name, p⟩
  | _, _, _ => none

/-- C3 counterexample: a FIND request with `request_id = 123` is
answered with the hard-coded `request_id = 321`, not 123. -/
theorem reply_id_not_echoed_cex :
    handle_request (hashtable_create Handler 100) ⟨123, 0, [97], ⟨0, 0, none⟩⟩
      = Except.ok ⟨321, 2, [97], ⟨0, 0, none⟩⟩
    ∧ (321 : Int) ≠ 123 := by
  constructor
  · rfl
  · decide

/-- C3 amended: every reply `handle_request` sends carries the constant
`request_id` 321 (rpc.c:299,313), independent of the request's id. -/
theorem reply_id_constant (srv : hashtable_t Handler) (msg : rpc_message)
    (r : rpc_message) (h : handle_request srv msg = Except.ok r) :
    r.request_id = 321 := by
  simp only [handle_request] at h
  split at h
  · cases h
    rfl
  · split at h
    · split at h
      · exact absurd h (by simp)
      · split at h
        · cases h
          rfl
        · exact absurd h (by simp)
    · exact absurd h (by simp)

/-- Witness for C3's amended statement at a concrete FIND request. -/
theorem reply_id_constant_witness :
    (⟨321, 2, [100], ⟨0, 0, none⟩⟩ : rpc_message).request_id = 321 :=
  reply_id_constant (hashtable_create Handler 100) ⟨7, 0, [100], ⟨0, 0, none⟩⟩
    ⟨321, 2, [100], ⟨0, 0, none⟩⟩ rfl

/-- C4: a CALL request whose name is not registered makes
`handle_request` call the NULL handler pointer (rpc.c:307-310) — a
crash, not a ReplyFailure. -/
theorem call_unknown_handler_crashes (srv : hashtable_t Handler) (msg : rpc_message)
    (hop : msg.operation = CALL)
    (habs : hashtable_lookup srv msg.function_name = none) :
    handle_request srv msg = Except.error server_crash.nullHandlerCall := by
  simp [handle_request, hop, habs, FIND, CALL]

/-- Witness for C4: unknown name `"m"` on an empty registry. -/
theorem call_unknown_handler_crashes_witness :
    handle_request (hashtable_create Handler 100) ⟨123, 1, [109], ⟨0, 0, none⟩⟩
      = Except.error server_crash.nullHandlerCall :=
  call_unknown_handler_crashes (hashtable_create Handler 100)
    ⟨123, 1, [109], ⟨0, 0, none⟩⟩ rfl (by rfl)

/-- C8: on a received REPLY (tag 2) or unknown tag (e.g. 3), the switch
assigns no `new_msg`, and the unconditional
`send_rpc_message(cl->sockfd, new_msg)` passes NULL to
`serialise_rpc_message` (rpc.c:810-816) — a NULL dereference, not a
clean no-op. -/
theorem reply_to_server_crashes (srv : hashtable_t Handler) (msg : rpc_message)
    (hop : msg.operation = 2 ∨ msg.operation = 3) :
    handle_request srv msg = Except.error server_crash.nullMessageSend := by
  rcases hop with hop | hop <;>
    simp [handle_request, hop, FIND, CALL]

/-- Witness for C8 at a concrete REPLY message. -/
theorem reply_to_server_crashes_witness :
    handle_request (hashtable_create Handler 100) ⟨123, 2, [97], ⟨0, 0, none⟩⟩
      = Except.error server_crash.nullMessageSend :=
  reply_to_server_crashes (hashtable_create Handler 100)
    ⟨123, 2, [97], ⟨0, 0, none⟩⟩ (Or.inl rfl)

/-- C5 counterexample: for the malformed payload
`{data1 = 0, data2_len = 3, data2 = NULL}` serialisation emits a
13-byte frame fragment (it does not reject), and `rpc_call` builds and
transmits the CALL request (it does not return NULL). -/
theorem malformed_payload_not_rejected_cex :
    serialise_rpc_data ⟨0, 3, none⟩ = serialise_int 0 ++ serialise_size_t 3
    ∧ serialise_rpc_data ⟨0, 3, none⟩ ≠ []
    ∧ rpc_call_request (some ⟨[], 3000, 5⟩) (some ⟨[97]⟩) (some ⟨0, 3, none⟩)
        = some ⟨123, 1, [97], ⟨0, 3, none⟩⟩
    ∧ ¬ WellFormedData ⟨0, 3, none⟩ := by
  refine ⟨?_, by decide, rfl, by decide⟩
  simp [serialise_rpc_data]

/-- C5 amended: neither point rejects a malformed payload.
`serialise_rpc_data` always emits `data1` and `data2_len` and silently
omits the `data2` bytes when the pointer is NULL, and `rpc_call`
transmits any non-NULL payload, malformed or not. -/
theorem malformed_payload_flows_through :
    (∀ (d1 : Int) (n : Nat),
        serialise_rpc_data ⟨d1, n, none⟩ = serialise_int d1 ++ serialise_size_t n)
    ∧ (∀ (c : rpc_client) (h : rpc_handle) (p : rpc_data),
        rpc_call_request (some c) (some h) (some p) = some ⟨123, CALL, h.name, p⟩) := by
  constructor
  · intro d1 n
    simp [serialise_rpc_data]
  · intro c h p
    rfl

/-- Witness for C5's amended statement. -/
theorem malformed_payload_flows_through_witness :
    serialise_rpc_data ⟨0, 2, none⟩ = serialise_int 0 ++ serialise_size_t 2
    ∧ rpc_call_request (some ⟨[], 3000, 5⟩) (some ⟨[98]⟩) (some ⟨0, 2, none⟩)
        = some ⟨123, CALL, [98], ⟨0, 2, none⟩⟩ :=
  ⟨malformed_payload_flows_through.1 0 2,
   malformed_payload_flows_through.2 ⟨[], 3000, 5⟩ ⟨[98]⟩ ⟨0, 2, none⟩⟩

/-! ## Frame receive (protocol.c:171-198) -/

/-- The header window `receive_rpc_message` reads before the body:
`gamma_code_length(MAX_MESSAGE_BYTE_SIZE)` bytes (protocol.c:174). -/
def header_bytes : Nat := gamma_code_length MAX_MESSAGE_BYTE_SIZE

theorem header_bytes_eq : header_bytes = 39 := by decide

/-- The body size `receive_rpc_message` decodes from the header and
passes to `new_buffer(size)` / `read_bytes(…, size)`
(protocol.c:178-187): no bound check is applied to it. -/
def receive_body_size (header : List Nat) : Nat :=
  (deserialise_size_t header).1

/-- C6 counterexample: a 39-byte header that is a perfectly valid gamma
encoding decodes to 1,048,574 > 1,000,000, so the receiver allocates a
body buffer larger than the claimed bound. -/
theorem receiver_size_bound_cex :
    (List.replicate 19 0 ++ 1 :: List.replicate 19 1).length = header_bytes
    ∧ receive_body_size (List.replicate 19 0 ++ 1 :: List.replicate 19 1) = 1048574
    ∧ 1000000 < 1048574 := by
  refine ⟨?_, by decide, by norm_num⟩
  rw [header_bytes_eq]
  decide

/-- C6 amended: the receiver performs no bound check; what limits the
decoded size is only the window itself.  For every header that is a
valid gamma encoding fitting the 39-byte window, the decoded size is
`≤ 1,048,574` (not 1,000,000) and decoding consumes exactly the
encoding, inside the window. -/
theorem receiver_size_bound_amended (v : Nat) (pad : List Nat)
    (hfit : (serialise_size_t v).length ≤ header_bytes) :
    receive_body_size (serialise_size_t v ++ pad) = v
    ∧ v ≤ 1048574
    ∧ (deserialise_size_t (serialise_size_t v ++ pad)).2 = pad := by
  have hrt := deserialise_serialise_size_t v pad
  refine ⟨?_, ?_, ?_⟩
  · unfold receive_body_size
    rw [hrt]
  · rw [serialise_size_t_length, header_bytes_eq] at hfit
    have hp := bit_length_pos (show 0 < v + 1 by omega)
    have hL : bit_length (v + 1) ≤ 20 := by omega
    have hhigh := (bit_length_bounds (show 0 < v + 1 by omega)).2
    have hmono : (2 : Nat) ^ bit_length (v + 1) ≤ 2 ^ 20 :=
      Nat.pow_le_pow_right (by norm_num) hL
    have h20 : (2 : Nat) ^ 20 = 1048576 := by norm_num
    omega
  · rw [hrt]

/-- Witness for C6's amended statement at the maximal protocol size. -/
theorem receiver_size_bound_amended_witness :
    receive_body_size (serialise_size_t 1000000 ++ []) = 1000000
    ∧ 1000000 ≤ 1048574
    ∧ (deserialise_size_t (serialise_size_t 1000000 ++ [])).2 = [] :=
  receiver_size_bound_amended 1000000 []
    (by rw [header_bytes_eq, serialise_size_t_length]; decide)

/-! ## Structural invariant of constructed payloads (protocol.c:344-357) -/

/-- The structural half of well-formedness: `data2` is absent exactly
when `data2_len` is zero. -/
def StructWellFormed (d : rpc_data) : Prop :=
  d.data2 = none ↔ d.data2_len = 0

/-- C10: every payload built by `new_rpc_data` satisfies the
`data2_len == 0 ⇔ data2 absent` invariant; a positive length stores a
copy of exactly `data2_len` bytes of the source (when the source holds
that many); and therefore `deserialise_rpc_data` can never return a
structurally malformed payload, whatever the input bytes. -/
theorem new_rpc_data_invariant :
    (∀ (d1 : Int) (len : Nat) (src : List Nat),
        StructWellFormed (new_rpc_data d1 len src)
        ∧ (0 < len → len ≤ src.length →
            (new_rpc_data d1 len src).data2 = some (src.take len)
            ∧ (src.take len).length = len))
    ∧ (∀ bs : List Nat, StructWellFormed (deserialise_rpc_data bs).1) := by
  have hmain : ∀ (d1 : Int) (len : Nat) (src : List Nat),
      StructWellFormed (new_rpc_data d1 len src)
      ∧ (0 < len → len ≤ src.length →
          (new_rpc_data d1 len src).data2 = some (src.take len)
          ∧ (src.take len).length = len) := by
    intro d1 len src
    constructor
    · unfold StructWellFormed new_rpc_data
      split
      · simp_all
      · simp_all
    · intro hpos hle
      unfold new_rpc_data
      rw [if_neg (by omega)]
      exact ⟨rfl, by simp [List.length_take]; omega⟩
  refine ⟨hmain, ?_⟩
  intro bs
  unfold deserialise_rpc_data
  exact (hmain _ _ _).1

/-- Witness for C10 at concrete inputs. -/
theorem new_rpc_data_invariant_witness :
    (StructWellFormed (new_rpc_data 1 2 [3, 4, 5])
      ∧ (new_rpc_data 1 2 [3, 4, 5]).data2 = some [3, 4]
      ∧ ([3, 4, 5].take 2).length = 2)
    ∧ StructWellFormed (deserialise_rpc_data [6]).1 := by
  refine ⟨⟨(new_rpc_data_invariant.1 1 2 [3, 4, 5]).1, ?_, ?_⟩,
    new_rpc_data_invariant.2 [6]⟩
  · exact ((new_rpc_data_invariant.1 1 2 [3, 4, 5]).2 (by norm_num) (by norm_num)).1
  · exact ((new_rpc_data_invariant.1 1 2 [3, 4, 5]).2 (by norm_num) (by norm_num)).2

end RPCVerify
